import Mathlib

/- Verification of the medical-billing printing backend (src-tauri).
   Strings are modelled as Lean `String`/`List Char`; OS interactions
   (process spawning, the filesystem, SQLite) are modelled as explicit
   environment records whose fields give each OS call's outcome. -/

/-- Lowercase every character; models Rust `str::to_lowercase` on the ASCII
printer names and tag patterns this code compares. -/
def lowerL (l : List Char) : List Char := l.map Char.toLower

/-- First index (if any) at which `pat` occurs contiguously in `l`. -/
def findSub? (pat : List Char) : List Char → Option Nat
  | [] => if pat.isPrefixOf [] then some 0 else none
  | c :: r => if pat.isPrefixOf (c :: r) then some 0 else (findSub? pat r).map (· + 1)

/-- Whether `pat` occurs contiguously in `l`; models Rust `str::contains`. -/
def containsSub (pat l : List Char) : Bool := (findSub? pat l).isSome

/-- Case-insensitive occurrence search: `pat` (already lowercase) against `lowerL l`. -/
def findCI? (pat l : List Char) : Option Nat := findSub? pat (lowerL l)

/-- String wrapper for `containsSub`: does `s` contain `pat`? -/
def containsS (s pat : String) : Bool := containsSub pat.data s.data

/-- String wrapper for `lowerL`. -/
def lowerS (s : String) : String := ⟨lowerL s.data⟩

/-- ASCII whitespace recogniser used to model Rust `str::trim` (which trims
Unicode whitespace; the strings compared here are ASCII). -/
def isWsChar (c : Char) : Bool := c == ' ' || c == '\t' || c == '\n' || c == '\r'

/-- Drop leading and trailing whitespace; models Rust `str::trim`. -/
def trimWsL (l : List Char) : List Char :=
  ((l.dropWhile isWsChar).reverse.dropWhile isWsChar).reverse

/-- String wrapper for `trimWsL`. -/
def trimS (s : String) : String := ⟨trimWsL s.data⟩

/-- Split a character list at every occurrence of `sep` (the separators are
dropped, empty segments kept). -/
def splitOnChar (sep : Char) : List Char → List (List Char)
  | [] => [[]]
  | c :: r =>
    match splitOnChar sep r with
    | [] => [[]]
    | ln :: lns => if c = sep then [] :: ln :: lns else (c :: ln) :: lns

/-- Models Rust `str::lines` as far as this code observes it (the code only
searches the resulting lines for `PRINTER:`/`ERROR:` marker lines, so the
`\r`-stripping and trailing-empty-line details of `lines` are immaterial). -/
def rustLines (s : String) : List String := (splitOnChar '\n' s.data).map (fun l => ⟨l⟩)

/-- Whether `s` starts with `pat`; models Rust `str::starts_with`. -/
def startsWithS (s pat : String) : Bool := pat.data.isPrefixOf s.data

/-- Fueled non-overlapping left-to-right replacement of `pat` by `rep`;
models Rust `str::replace`. The fuel only bounds recursion depth; the
wrapper `rustReplaceS` always supplies enough. -/
def rustReplaceL : Nat → List Char → List Char → List Char → List Char
  | 0, _, _, l => l
  | _ + 1, _, _, [] => []
  | f + 1, pat, rep, c :: r =>
    if pat.isPrefixOf (c :: r) then rep ++ rustReplaceL f pat rep (List.drop pat.length (c :: r))
    else c :: rustReplaceL f pat rep r

/-- String wrapper for `rustReplaceL`; models Rust `str::replace`. -/
def rustReplaceS (pat rep s : String) : String :=
  ⟨rustReplaceL (s.data.length + 1) pat.data rep.data s.data⟩

/- ===== print.rs ===== -/

/-- OS facilities invoked by `silent_print` (src/src-tauri/src/print.rs), in
the order the code reaches them. -/
inductive OsCall where
  | tempWrite
  | queryDefaultPrinter
  | runEdge
  | runPsFallback
deriving DecidableEq

/-- Captured output of one finished OS process
(`std::process::Command::output` success value). -/
structure ProcOut where
  stdout : String
  stderr : String
deriving DecidableEq

/-- Outcomes of every OS-facing step `silent_print` can take: the three
temp-file steps (`File::create`, `write_all`, `flush`; `none` = success,
`some e` = the io error's text), the default-printer PowerShell query, the
existence check for the Edge binary, and the two process invocations. -/
structure SPEnv where
  createErr : Option String
  writeErr : Option String
  flushErr : Option String
  defaultQuery : Except String ProcOut
  edgeInstalled : Bool
  edgeRun : Except String ProcOut
  psRun : Except String ProcOut

/-- print.rs line 56: the error returned when no default printer resolves. -/
def noDefaultPrinterMsg : String :=
  "No default printer configured. Please set TVS MSP 250 as default printer in Windows Settings."

/-- print.rs lines 63-66: the error returned when the default printer looks
like a virtual (PDF/OneNote) printer. -/
def unsuitablePrinterMsg (printer : String) : String :=
  "Default printer is '" ++ printer ++
    "'. Please set your TVS MSP 250 printer as the default printer in Windows Settings."

/-- print.rs lines 46-53: the default-printer name `silent_print` resolves —
the trimmed stdout of the PowerShell query, or `""` when the query itself
failed to run. -/
def resolvedDefaultName (env : SPEnv) : String :=
  match env.defaultQuery with
  | .ok out => trimS out.stdout
  | .error _ => ""

/-- print.rs lines 184-210: how `silent_print` interprets the PowerShell
fallback script's outcome (the script prints `PRINTER:`/`SUCCESS`/`ERROR:`/
`IE_FAILED:` marker lines on stdout). -/
def psFallbackOutcome (r : Except String ProcOut) : Except String String :=
  match r with
  | .error e => .error ("Failed to execute: " ++ e)
  | .ok result =>
    let outStr := trimS result.stdout
    if containsS outStr "SUCCESS" then
      .ok ("Print job sent to " ++
        (((rustLines outStr).find? (fun l => startsWithS l "PRINTER:")).map
          (fun l => rustReplaceS "PRINTER:" "" l)).getD "")
    else if containsS outStr "ERROR:" || containsS outStr "IE_FAILED:" then
      .error ((((rustLines outStr).find? (fun l =>
          startsWithS l "ERROR:" || startsWithS l "IE_FAILED:")).map
        (fun l => rustReplaceS "IE_FAILED:" "" (rustReplaceS "ERROR:" "" l))).getD
        "Print failed")
    else .ok "Print initiated"

/-- print.rs lines 13-217, `silent_print`: writes the markup to a temp file
(lines 14-27, before and regardless of any platform or printer check), then
on Windows resolves the default printer, applies the PDF/OneNote guard, and
runs Edge kiosk printing with fallback to the IE/ShellExecute PowerShell
script. `windows` models the `#[cfg(windows)]` split; the returned list
records the OS facilities invoked, in order. -/
def silent_print (windows : Bool) (env : SPEnv) (_htmlContent : String) :
    Except String String × List OsCall :=
  match env.createErr with
  | some e => (.error ("Failed to create temp file: " ++ e), [OsCall.tempWrite])
  | none =>
    match env.writeErr with
    | some e => (.error ("Failed to write HTML content: " ++ e), [OsCall.tempWrite])
    | none =>
      match env.flushErr with
      | some e => (.error ("Failed to flush file: " ++ e), [OsCall.tempWrite])
      | none =>
        if windows then
          let printerName := resolvedDefaultName env
          if printerName = "" then
            (.error noDefaultPrinterMsg, [OsCall.tempWrite, OsCall.queryDefaultPrinter])
          else if containsS (lowerS printerName) "pdf" ||
              containsS (lowerS printerName) "onenote" then
            (.error (unsuitablePrinterMsg printerName), [OsCall.tempWrite, OsCall.queryDefaultPrinter])
          else if env.edgeInstalled then
            match env.edgeRun with
            | .ok _ =>
              (.ok ("Print job sent to " ++ printerName),
                [OsCall.tempWrite, OsCall.queryDefaultPrinter, OsCall.runEdge])
            | .error _ =>
              (psFallbackOutcome env.psRun,
                [OsCall.tempWrite, OsCall.queryDefaultPrinter, OsCall.runEdge, OsCall.runPsFallback])
          else
            (psFallbackOutcome env.psRun,
              [OsCall.tempWrite, OsCall.queryDefaultPrinter, OsCall.runPsFallback])
        else (.error "Silent printing is only supported on Windows", [OsCall.tempWrite])

/-- print.rs lines 220-248, `check_printer_available`: `query` is the
outcome of the default-printer PowerShell invocation. -/
def check_printer_available (windows : Bool) (query : Except String ProcOut) :
    Except String Bool :=
  if windows then
    match query with
    | .ok result => .ok (!(trimS result.stdout).isEmpty)
    | .error _ => .ok false
  else .ok false

/-- print.rs lines 251-282, `get_default_printer`. -/
def get_default_printer (windows : Bool) (query : Except String ProcOut) :
    Except String String :=
  if windows then
    match query with
    | .ok result =>
      let printerName := trimS result.stdout
      if printerName.isEmpty then .error "No default printer configured"
      else .ok printerName
    | .error e => .error ("Failed to get printer: " ++ e)
  else .error "Only supported on Windows"

/-- print.rs lines 285-316, `list_printers`: lines of stdout, trimmed, empty
lines dropped. -/
def list_printers (windows : Bool) (query : Except String ProcOut) :
    Except String (List String) :=
  if windows then
    match query with
    | .ok result =>
      .ok (((splitOnChar '\n' result.stdout.data).map (fun l => trimS ⟨l⟩)).filter
        (fun s => !s.isEmpty))
    | .error e => .error ("Failed to list printers: " ++ e)
  else .error "Only supported on Windows"

/-- print.rs lines 323-327: the `-PrinterName` argument, with single quotes
in the name doubled. -/
def prtPrinterArg (printerName : Option String) : String :=
  match printerName with
  | some name => "-PrinterName '" ++ rustReplaceS "'" "''" name ++ "'"
  | none => ""

/-- print.rs line 329: the text with single quotes doubled, then backticks
doubled. -/
def prtEscapedText (text : String) : String :=
  rustReplaceS "`" "``" (rustReplaceS "'" "''" text)

/-- print.rs lines 331-339: the PowerShell script `print_raw_text` runs (a
here-string holding the escaped text, piped to `Out-Printer`). -/
def prtScript (text : String) (printerName : Option String) : String :=
  "\n$content = @'\n" ++ prtEscapedText text ++ "\n'@\nOut-Printer " ++
    prtPrinterArg printerName ++ " -InputObject $content\nWrite-Output \"SUCCESS\"\n            "

/-- print.rs lines 320-374, `print_raw_text`: `os` maps the script actually
invoked to the invocation's outcome. -/
def print_raw_text (windows : Bool) (os : String → Except String ProcOut)
    (text : String) (printerName : Option String) : Except String String :=
  if windows then
    match os (prtScript text printerName) with
    | .ok result =>
      if containsS result.stdout "SUCCESS" then .ok "Raw print job sent"
      else .error ("Print failed: " ++ result.stderr)
    | .error e => .error ("Failed to execute: " ++ e)
  else .error "Only supported on Windows"

/- ===== medicines.rs ===== -/

/-- One row of the `medicines` table, as far as `get_medicines_count`
observes it. -/
structure MedRow where
  is_active : Int

/-- Outcomes of the OS/database steps `get_medicines_count` takes: config-dir
resolution, the db file's existence, `Connection::open`, and whether the
count query itself succeeds (`query_row(...)`; on failure the code takes
`unwrap_or(0)`). `rows` is the `medicines` table the query would count. -/
structure MedEnv where
  configDir : Except String String
  dbExists : Bool
  openResult : Except String Unit
  queryOk : Bool
  rows : List MedRow

/-- Semantics of `SELECT COUNT(*) FROM medicines WHERE is_active = 1`. -/
def countActive (rows : List MedRow) : Nat :=
  (rows.filter (fun r => r.is_active == 1)).length

/-- medicines.rs lines 87-105, `get_medicines_count`. -/
def get_medicines_count (env : MedEnv) : Except String Nat :=
  match env.configDir with
  | .error e => .error ("Failed to get config directory: " ++ e)
  | .ok _ =>
    if !env.dbExists then .ok 0
    else
      match env.openResult with
      | .error e => .error ("Failed to open database: " ++ e)
      | .ok _ => if env.queryOk then .ok (countActive env.rows) else .ok 0

/- ===== lib.rs ===== -/

/-- The `#[command]`/`#[tauri::command]` functions of print.rs and
medicines.rs. -/
inductive TauriCommand where
  | silentPrint
  | checkPrinterAvailable
  | getDefaultPrinter
  | listPrinters
  | printRawText
  | importBundledMedicines
  | getMedicinesCount
deriving DecidableEq

/-- lib.rs lines 13-19: the commands passed to `tauri::generate_handler!` in
`run`'s `.invoke_handler(...)`, in source order. -/
def registeredCommands : List TauriCommand :=
  [.silentPrint, .checkPrinterAvailable, .getDefaultPrinter,
   .importBundledMedicines, .getMedicinesCount]

/- ===== Markup Text Extractor (spec section 4.1) ===== -/

/-- Spec section 4.1 step 1: the block patterns removed case-insensitively. -/
def scriptOpenPat : List Char := "<script".data

/-- Closing pattern of a script block. -/
def scriptClosePat : List Char := "</script>".data

/-- Opening pattern of a style block. -/
def styleOpenPat : List Char := "<style".data

/-- Closing pattern of a style block. -/
def styleClosePat : List Char := "</style>".data

/-- Opening pattern of a comment block. -/
def commentOpenPat : List Char := "<!--".data

/-- Closing pattern of a comment block. -/
def commentClosePat : List Char := "-->".data

/-- Remove one block from `l`: the open pattern occurs (case-insensitively)
at index `i`; cut from `i` through the close pattern, or to the end of the
string when the block is unterminated (spec: "truncate at end of string
rather than fail"). -/
def removeBlockOnce (openPat closePat l : List Char) (i : Nat) : List Char :=
  let rest := l.drop (i + openPat.length)
  match findCI? closePat rest with
  | some j => l.take i ++ rest.drop (j + closePat.length)
  | none => l.take i

/-- Spec section 4.1 step 1: remove all script, style and comment blocks,
case-insensitively, content included, repeating until none remains ("these
must never leak into printed output"). Fueled; `removeBlocks` supplies
enough fuel (each round removes at least one character). -/
def removeBlocksF : Nat → List Char → List Char
  | 0, l => l
  | f + 1, l =>
    match findCI? scriptOpenPat l with
    | some i => removeBlocksF f (removeBlockOnce scriptOpenPat scriptClosePat l i)
    | none =>
      match findCI? styleOpenPat l with
      | some i => removeBlocksF f (removeBlockOnce styleOpenPat styleClosePat l i)
      | none =>
        match findSub? commentOpenPat l with
        | some i => removeBlocksF f (removeBlockOnce commentOpenPat commentClosePat l i)
        | none => l

/-- Wrapper supplying sufficient fuel for `removeBlocksF`. -/
def removeBlocks (l : List Char) : List Char := removeBlocksF (l.length + 1) l

/-- Spec section 4.1 step 2: the first `<pre>`...`</pre>` region's content,
if any (first occurrence wins; unterminated runs to end of string). -/
def preContent? (l : List Char) : Option (List Char) :=
  match findCI? "<pre>".data l with
  | some i =>
    let rest := l.drop (i + 5)
    match findCI? "</pre>".data rest with
    | some j => some (rest.take j)
    | none => some rest
  | none => none

/-- Spec section 4.1 step 3: narrow to `<body>`...`</body>` if present, else
the whole document. -/
def bodyContent (l : List Char) : List Char :=
  match findCI? "<body>".data l with
  | some i =>
    let rest := l.drop (i + 6)
    match findCI? "</body>".data rest with
    | some j => rest.take j
    | none => rest
  | none => l

/-- Spec section 4.1 step 4: the fixed-width separator emitted for `<hr>`. -/
def hrSeparator : List Char := List.replicate 32 '-'

/-- Spec section 4.1 step 4: block-level closing tags and `<br>` variants
become newlines, `<hr>` variants the separator line, `</td>`/`</th>` a
two-space column gap. -/
def tagRules : List (List Char × List Char) :=
  [("</p>".data, ['\n']), ("</div>".data, ['\n']), ("</tr>".data, ['\n']),
   ("</h1>".data, ['\n']), ("</h2>".data, ['\n']), ("</h3>".data, ['\n']),
   ("</h4>".data, ['\n']), ("</h5>".data, ['\n']), ("</h6>".data, ['\n']),
   ("<br />".data, ['\n']), ("<br/>".data, ['\n']), ("<br>".data, ['\n']),
   ("<hr />".data, hrSeparator), ("<hr/>".data, hrSeparator), ("<hr>".data, hrSeparator),
   ("</td>".data, [' ', ' ']), ("</th>".data, [' ', ' '])]

/-- First translation rule matching, case-insensitively, at the head of `l`
(returns the replacement and how many characters the tag occupies). -/
def matchTag (l : List Char) : Option (List Char × Nat) :=
  match tagRules.find? (fun pr => pr.1.isPrefixOf (lowerL l)) with
  | some pr => some (pr.2, pr.1.length)
  | none => none

/-- Spec section 4.1 steps 4-5 as one left-to-right scan: translate the
known tags and remove every other `<`-to-`>` sequence (truncating at end of
string when unterminated); all other characters are copied. Fueled;
`stripTags` supplies enough fuel. -/
def stripTagsF : Nat → List Char → List Char
  | 0, _ => []
  | _ + 1, [] => []
  | f + 1, c :: r =>
    if c = '<' then
      match matchTag (c :: r) with
      | some (rep, n) => rep ++ stripTagsF f (List.drop n (c :: r))
      | none => stripTagsF f ((r.dropWhile (fun a => a != '>')).drop 1)
    else c :: stripTagsF f r

/-- Wrapper supplying sufficient fuel for `stripTagsF`. -/
def stripTags (l : List Char) : List Char := stripTagsF (l.length + 1) l

/-- Spec section 4.1 step 6: the fixed, exact-case entity table. -/
def entityRules : List (List Char × List Char) :=
  [("&nbsp;".data, [' ']), ("&amp;".data, ['&']), ("&lt;".data, ['<']),
   ("&gt;".data, ['>']), ("&quot;".data, ['"']), ("&#39;".data, ['\''])]

/-- First entity rule matching at the head of `l`. -/
def matchEntity (l : List Char) : Option (List Char × Nat) :=
  match entityRules.find? (fun pr => pr.1.isPrefixOf l) with
  | some pr => some (pr.2, pr.1.length)
  | none => none

/-- The currency glyph the spec decodes to a literal "Rs.". -/
def rupeeChar : Char := '₹'

/-- The multiplication glyph the spec decodes to "x". -/
def multChar : Char := '×'

/-- Spec section 4.1 step 6: decode the entity table plus the currency and
multiplication glyphs. Fueled; `decode` supplies enough fuel. -/
def decodeF : Nat → List Char → List Char
  | 0, _ => []
  | _ + 1, [] => []
  | f + 1, c :: r =>
    if c = '&' then
      match matchEntity (c :: r) with
      | some (rep, n) => rep ++ decodeF f (List.drop n (c :: r))
      | none => c :: decodeF f r
    else if c = rupeeChar then 'R' :: 's' :: '.' :: decodeF f r
    else if c = multChar then 'x' :: decodeF f r
    else c :: decodeF f r

/-- Wrapper supplying sufficient fuel for `decodeF`. -/
def decode (l : List Char) : List Char := decodeF (l.length + 1) l

/-- Per-character image of `decode` on `&`-free text: only the glyph
substitutions fire. -/
def substChar (c : Char) : List Char :=
  if c = rupeeChar then ['R', 's', '.'] else if c = multChar then ['x'] else [c]

/-- Character-wise decode used to reason about `decode` on `&`-free text. -/
def subst : List Char → List Char
  | [] => []
  | c :: r => substChar c ++ subst r

/-- Spec section 4.1 step 7: trim a line's leading and trailing spaces. -/
def trimLine (l : List Char) : List Char :=
  ((l.dropWhile (fun a => a == ' ')).reverse.dropWhile (fun a => a == ' ')).reverse

/-- Spec section 4.1 step 7: collapse every run of two or more spaces to
exactly two (preserving column alignment). Fueled; `collapseSpaces`
supplies enough fuel. -/
def collapseSpacesF : Nat → List Char → List Char
  | 0, _ => []
  | _ + 1, [] => []
  | f + 1, c :: r =>
    if c = ' ' then
      match r with
      | [] => [' ']
      | c2 :: r2 =>
        if c2 = ' ' then ' ' :: ' ' :: collapseSpacesF f (r2.dropWhile (fun a => a == ' '))
        else ' ' :: collapseSpacesF f r
    else c :: collapseSpacesF f r

/-- Wrapper supplying sufficient fuel for `collapseSpacesF`. -/
def collapseSpaces (l : List Char) : List Char := collapseSpacesF (l.length + 1) l

/-- Spec section 4.1 step 7: a line that looks like stray CSS (contains a
brace, or starts with `@`). -/
def isCssLine (l : List Char) : Bool :=
  l.contains '{' || l.contains '}' || l.head? == some '@'

/-- Spec section 4.1 step 7: collapse every run of three or more blank lines
to a single blank line. Fueled; `collapseBlanks` supplies enough fuel. -/
def collapseBlanksF : Nat → List (List Char) → List (List Char)
  | 0, _ => []
  | _ + 1, [] => []
  | f + 1, ln :: lns =>
    match ln, lns with
    | [], [] :: [] :: rest => [] :: collapseBlanksF f (rest.dropWhile List.isEmpty)
    | _, _ => ln :: collapseBlanksF f lns

/-- Wrapper supplying sufficient fuel for `collapseBlanksF`. -/
def collapseBlanks (lns : List (List Char)) : List (List Char) :=
  collapseBlanksF (lns.length + 1) lns

/-- Join lines back with newlines. -/
def joinLines : List (List Char) → List Char
  | [] => []
  | [ln] => ln
  | ln :: lns => ln ++ '\n' :: joinLines lns

/-- Spec section 4.1 step 7 in full: split into lines, trim each line,
collapse space runs, drop CSS-looking lines, collapse blank-line runs,
rejoin. -/
def normalizeWs (l : List Char) : List Char :=
  joinLines (collapseBlanks
    (((splitOnChar '\n' l).map (fun ln => collapseSpaces (trimLine ln))).filter
      (fun ln => !isCssLine ln)))

/-- Spec section 4.1 step 8: trailing blank lines and a form feed so the
physical mechanism ejects the receipt. -/
def padSuffix : List Char := ['\n', '\n', '\n', '\n', '\n', '\x0C']

/-- Modelled from the spec: the Markup Text Extractor's `extract` (spec
section 4.1) is not among the repository's Rust sources (it is frontend
code, absent from src/), so the pipeline is modelled from the spec's steps
1-8: block removal, `<pre>` preference, `<body>` narrowing, tag
translation and stripping, entity decoding, whitespace normalisation,
padding. -/
def extractL (input : List Char) : List Char :=
  let rb := removeBlocks input
  let core :=
    match preContent? rb with
    | some pc => pc
    | none => stripTags (bodyContent rb)
  normalizeWs (decode core) ++ padSuffix

/-- String wrapper for `extractL`. -/
def extract (markup : String) : String := ⟨extractL markup.data⟩

/-- Spec-side description of the Raw Spool Sender's escaping (spec section
4.4): every single quote and every backtick of the text is doubled. -/
def escBothChar (c : Char) : List Char :=
  if c = '\'' || c = '`' then [c, c] else [c]

/-- Spec-side description of the printer-name escaping: every single quote
is doubled. -/
def escQuoteChar (c : Char) : List Char :=
  if c = '\'' then [c, c] else [c]

/- ===== Generic helper lemmas ===== -/

theorem rustReplaceL_singleChar (c : Char) (rep : List Char) :
    ∀ (f : Nat) (l : List Char), l.length < f →
      rustReplaceL f [c] rep l = l.flatMap (fun a => if a = c then rep else [a]) := by
  intro f
  induction f with
  | zero => intro l h; omega
  | succ f ih =>
    intro l h
    cases l with
    | nil => rfl
    | cons a r =>
      have hr : r.length < f := Nat.lt_of_succ_lt_succ (by simpa using h)
      by_cases hca : c = a
      · subst hca
        have hpre : List.isPrefixOf [c] (c :: r) = true := by simp [List.isPrefixOf]
        have hdrop : List.drop (List.length [c]) (c :: r) = r := rfl
        simp [rustReplaceL, hpre, hdrop, ih r hr]
      · have hac : ¬a = c := fun hh => hca hh.symm
        have hpre : List.isPrefixOf [c] (a :: r) = false := by
          simp [List.isPrefixOf, hca]
        simp [rustReplaceL, hpre, ih r hr, hac]

theorem flatMap_congr_fun {α β : Type} {f g : α → List β} (h : ∀ a, f a = g a) :
    ∀ l : List α, l.flatMap f = l.flatMap g := by
  intro l
  induction l with
  | nil => rfl
  | cons a r ih => simp [List.flatMap_cons, h a, ih]

theorem flatMap_comp {α : Type} (f g : α → List α) :
    ∀ l : List α, (l.flatMap f).flatMap g = l.flatMap (fun a => (f a).flatMap g) := by
  intro l
  induction l with
  | nil => rfl
  | cons a r ih => simp [List.flatMap_cons, ih]

theorem count_flatMap_dup (q : Char) (g : Char → List Char)
    (hdup : g q = [q, q]) (hother : ∀ a, ¬a = q → List.count q (g a) = 0) :
    ∀ l : List Char, (l.flatMap g).count q = 2 * l.count q := by
  intro l
  induction l with
  | nil => rfl
  | cons a r ih =>
    rw [List.flatMap_cons, List.count_append, ih]
    by_cases ha : a = q
    · subst ha
      rw [hdup]
      have h2 : List.count a [a, a] = 2 := by simp
      have hc : List.count a (a :: r) = List.count a r + 1 := by simp [List.count_cons]
      rw [h2, hc]
      omega
    · rw [hother a ha]
      have hc : List.count q (a :: r) = List.count q r := by simp [List.count_cons, ha]
      rw [hc]
      omega

theorem count_escBoth_ne (q a : Char) (ha : ¬a = q) : List.count q (escBothChar a) = 0 := by
  by_cases h1 : a = '\'' || a = '`'
  · have he : escBothChar a = [a, a] := by simp [escBothChar, h1]
    simp [he, List.count_cons, ha]
  · have he : escBothChar a = [a] := by simp [escBothChar, h1]
    simp [he, List.count_cons, ha]

theorem count_escQuote_ne (q a : Char) (ha : ¬a = q) : List.count q (escQuoteChar a) = 0 := by
  by_cases h1 : a = '\''
  · have he : escQuoteChar a = [a, a] := by simp [escQuoteChar, h1]
    simp [he, List.count_cons, ha]
  · have he : escQuoteChar a = [a] := by simp [escQuoteChar, h1]
    simp [he, List.count_cons, ha]

theorem prtEscapedText_eq_flatMap (text : String) :
    (prtEscapedText text).data = text.data.flatMap escBothChar := by
  have hq : ("'" : String).data = ['\''] := by decide
  have hqq : ("''" : String).data = ['\'', '\''] := by decide
  have hb : ("`" : String).data = ['`'] := by decide
  have hbb : ("``" : String).data = ['`', '`'] := by decide
  have hinner : (rustReplaceS "'" "''" text).data =
      text.data.flatMap (fun a => if a = '\'' then ['\'', '\''] else [a]) := by
    show rustReplaceL (text.data.length + 1) ("'" : String).data ("''" : String).data
        text.data = _
    rw [hq, hqq]
    exact rustReplaceL_singleChar _ _ _ _ (Nat.lt_succ_self _)
  have houter : (prtEscapedText text).data =
      (rustReplaceS "'" "''" text).data.flatMap
        (fun a => if a = '`' then ['`', '`'] else [a]) := by
    show rustReplaceL ((rustReplaceS "'" "''" text).data.length + 1) ("`" : String).data
        ("``" : String).data (rustReplaceS "'" "''" text).data = _
    rw [hb, hbb]
    exact rustReplaceL_singleChar _ _ _ _ (Nat.lt_succ_self _)
  rw [houter, hinner, flatMap_comp]
  refine flatMap_congr_fun ?_ _
  intro a
  by_cases h1 : a = '\''
  · subst h1; decide
  · by_cases h2 : a = '`'
    · subst h2; decide
    · simp [h1, h2, escBothChar, List.flatMap_cons]

theorem rustReplaceQuote_eq_flatMap (name : String) :
    (rustReplaceS "'" "''" name).data = name.data.flatMap escQuoteChar := by
  have hq : ("'" : String).data = ['\''] := by decide
  have hqq : ("''" : String).data = ['\'', '\''] := by decide
  have h : (rustReplaceS "'" "''" name).data =
      name.data.flatMap (fun a => if a = '\'' then ['\'', '\''] else [a]) := by
    show rustReplaceL (name.data.length + 1) ("'" : String).data ("''" : String).data
        name.data = _
    rw [hq, hqq]
    exact rustReplaceL_singleChar _ _ _ _ (Nat.lt_succ_self _)
  rw [h]
  refine flatMap_congr_fun ?_ _
  intro a
  by_cases h1 : a = '\''
  · subst h1; decide
  · simp [h1, escQuoteChar]

/- ===== Claim theorems ===== -/

/-- C7: print_raw_text escapes the spooler-script metacharacters before
embedding them (print.rs lines 320-339): the escaped text equals the input
with every single quote and every backtick doubled character-by-character
(`escBothChar`), the escaped printer name equals the name with every single
quote doubled (`escQuoteChar`), and consequently the quote/backtick counts
double exactly. -/
theorem printRawText_escaping_doubles_quotes (text name : String) :
    (prtEscapedText text).data = text.data.flatMap escBothChar ∧
      (prtEscapedText text).data.count '\'' = 2 * text.data.count '\'' ∧
      (prtEscapedText text).data.count '`' = 2 * text.data.count '`' ∧
      (rustReplaceS "'" "''" name).data = name.data.flatMap escQuoteChar ∧
      (rustReplaceS "'" "''" name).data.count '\'' = 2 * name.data.count '\'' := by
  refine ⟨prtEscapedText_eq_flatMap text, ?_, ?_, rustReplaceQuote_eq_flatMap name, ?_⟩
  · rw [prtEscapedText_eq_flatMap text]
    exact count_flatMap_dup _ _ (by decide) (fun a ha => count_escBoth_ne _ a ha) _
  · rw [prtEscapedText_eq_flatMap text]
    exact count_flatMap_dup _ _ (by decide) (fun a ha => count_escBoth_ne _ a ha) _
  · rw [rustReplaceQuote_eq_flatMap name]
    exact count_flatMap_dup _ _ (by decide) (fun a ha => count_escQuote_ne _ a ha) _

/-- C9: check_printer_available never returns the error variant (print.rs
lines 221-248): it returns Ok(b), and b is true exactly when the platform
is Windows and the default-printer query ran and produced a non-empty
trimmed name; query failure and non-Windows both give Ok(false). -/
theorem check_printer_available_total (windows : Bool) (query : Except String ProcOut) :
    (∃ b, check_printer_available windows query = .ok b) ∧
      (check_printer_available windows query = .ok true ↔
        windows = true ∧ ∃ out, query = .ok out ∧ (trimS out.stdout).isEmpty = false) := by
  cases windows with
  | false =>
    refine ⟨⟨false, rfl⟩, ?_⟩
    simp [check_printer_available]
  | true =>
    cases query with
    | error e =>
      refine ⟨⟨false, rfl⟩, ?_⟩
      simp [check_printer_available]
    | ok out =>
      refine ⟨⟨!(trimS out.stdout).isEmpty, rfl⟩, ?_⟩
      simp [check_printer_available]

/-- C4 counterexample: on a non-Windows platform, check_printer_available
returns Ok(false) — the ok variant — not the fixed platform-unsupported
failure (the error variant) the claim requires of every exposed
operation (print.rs lines 244-247). -/
theorem check_printer_available_nonwindows_ok_counterexample :
    check_printer_available false (.error "boom") = .ok false ∧
      check_printer_available false (.error "boom") ≠ .error "Only supported on Windows" :=
  ⟨rfl, fun h => Except.noConfusion h⟩

theorem append_ne_of_head_ne {s u : String} (t : String) (a b : Char)
    (hs : s.data.head? = some a) (hu : u.data.head? = some b) (hab : ¬a = b) :
    s ++ t ≠ u := by
  intro heq
  have hd := congrArg String.data heq
  rw [String.data_append] at hd
  apply hab
  have h1 : (s.data ++ t.data).head? = some a := by
    cases hse : s.data with
    | nil => rw [hse] at hs; simp at hs
    | cons x rest =>
      rw [hse] at hs
      simp only [List.head?_cons, Option.some.injEq] at hs
      simp [List.cons_append, List.head?_cons, hs]
  rw [hd, hu] at h1
  exact (Option.some.inj h1).symm

/-- C4 amended: on non-Windows platforms, get_default_printer, list_printers
and print_raw_text do return the fixed unsupported-platform error for all
inputs and independently of every OS outcome; check_printer_available
instead returns Ok(false); and silent_print performs the temp-file write
first (its OS-call trace is exactly the temp write), returns the error of
whichever temp-file step fails first when one does, and returns the fixed
unsupported error exactly when all three temp-file steps succeed. -/
theorem nonwindows_behavior_amended (q1 q2 : Except String ProcOut)
    (os : String → Except String ProcOut) (text html : String) (pn : Option String)
    (env : SPEnv) :
    get_default_printer false q1 = .error "Only supported on Windows" ∧
      list_printers false q2 = .error "Only supported on Windows" ∧
      print_raw_text false os text pn = .error "Only supported on Windows" ∧
      check_printer_available false q1 = .ok false ∧
      (silent_print false env html).2 = [OsCall.tempWrite] ∧
      (env.createErr = none → env.writeErr = none → env.flushErr = none →
        (silent_print false env html).1 =
          .error "Silent printing is only supported on Windows") ∧
      (∀ e, env.createErr = some e →
        (silent_print false env html).1 = .error ("Failed to create temp file: " ++ e)) ∧
      (∀ e, env.createErr = none → env.writeErr = some e →
        (silent_print false env html).1 = .error ("Failed to write HTML content: " ++ e)) ∧
      (∀ e, env.createErr = none → env.writeErr = none → env.flushErr = some e →
        (silent_print false env html).1 = .error ("Failed to flush file: " ++ e)) ∧
      ((silent_print false env html).1 =
          .error "Silent printing is only supported on Windows" ↔
        env.createErr = none ∧ env.writeErr = none ∧ env.flushErr = none) := by
  obtain ⟨ce, we, fe, dq, ei, er, pr⟩ := env
  refine ⟨rfl, rfl, rfl, ?_, ?_, ?_, ?_, ?_, ?_, ?_⟩
  · cases q1 <;> rfl
  · cases ce <;> cases we <;> cases fe <;> rfl
  · intro h1 h2 h3
    cases ce with
    | some e => exact Option.noConfusion h1
    | none =>
      cases we with
      | some e => exact Option.noConfusion h2
      | none =>
        cases fe with
        | some e => exact Option.noConfusion h3
        | none => rfl
  · intro e h1
    cases ce with
    | some e2 => rw [Option.some.inj h1] at *; rfl
    | none => exact Option.noConfusion h1
  · intro e h1 h2
    cases ce with
    | some e2 => exact Option.noConfusion h1
    | none =>
      cases we with
      | some e2 => rw [Option.some.inj h2] at *; rfl
      | none => exact Option.noConfusion h2
  · intro e h1 h2 h3
    cases ce with
    | some e2 => exact Option.noConfusion h1
    | none =>
      cases we with
      | some e2 => exact Option.noConfusion h2
      | none =>
        cases fe with
        | some e2 => rw [Option.some.inj h3] at *; rfl
        | none => exact Option.noConfusion h3
  · constructor
    · intro h
      cases ce with
      | some e =>
        exact absurd (Except.error.inj h)
          (append_ne_of_head_ne e 'F' 'S' (by decide) (by decide) (by decide))
      | none =>
        cases we with
        | some e =>
          exact absurd (Except.error.inj h)
            (append_ne_of_head_ne e 'F' 'S' (by decide) (by decide) (by decide))
        | none =>
          cases fe with
          | some e =>
            exact absurd (Except.error.inj h)
              (append_ne_of_head_ne e 'F' 'S' (by decide) (by decide) (by decide))
          | none => exact ⟨rfl, rfl, rfl⟩
    · rintro ⟨h1, h2, h3⟩
      cases ce with
      | some e => exact Option.noConfusion h1
      | none =>
        cases we with
        | some e => exact Option.noConfusion h2
        | none =>
          cases fe with
          | some e => exact Option.noConfusion h3
          | none => rfl

/-- C6 counterexample: the claim ties failure to a non-empty error stream,
but print_raw_text keys on stdout containing SUCCESS (print.rs lines
355-366): with stdout "SUCCESS\n" and the non-empty error stream
"printer jam" it still succeeds, and with entirely empty streams (no error
reported) it fails. -/
theorem printRawText_ignores_stderr_counterexample :
    print_raw_text true (fun _ => .ok ⟨"SUCCESS\n", "printer jam"⟩) "receipt" none =
        .ok "Raw print job sent" ∧
      print_raw_text true (fun _ => .ok ⟨"", ""⟩) "receipt" none =
        .error ("Print failed: " ++ "") :=
  ⟨rfl, rfl⟩

/-- C6 amended: when the spool invocation itself runs, print_raw_text fails
— carrying the raw stderr as detail — exactly when the invocation's stdout
does not contain the marker SUCCESS; the error stream's content plays no
role in the success decision (print.rs lines 355-366). -/
theorem printRawText_success_iff_stdout_marker (os : String → Except String ProcOut)
    (text : String) (pn : Option String) (out : ProcOut)
    (h : os (prtScript text pn) = .ok out) :
    (containsS out.stdout "SUCCESS" = true →
        print_raw_text true os text pn = .ok "Raw print job sent") ∧
      (containsS out.stdout "SUCCESS" = false →
        print_raw_text true os text pn = .error ("Print failed: " ++ out.stderr)) := by
  constructor <;> intro hc <;> simp [print_raw_text, h, hc]

/-- C6 amended witness: concrete invocation outcomes exercising both sides. -/
theorem printRawText_success_iff_stdout_marker_witness :
    (containsS ("no marker" : String) "SUCCESS" = true →
        print_raw_text true (fun _ => .ok ⟨"no marker", "spool err"⟩) "txt" none =
          .ok "Raw print job sent") ∧
      (containsS ("no marker" : String) "SUCCESS" = false →
        print_raw_text true (fun _ => .ok ⟨"no marker", "spool err"⟩) "txt" none =
          .error ("Print failed: " ++ "spool err")) :=
  printRawText_success_iff_stdout_marker (fun _ => .ok ⟨"no marker", "spool err"⟩)
    "txt" none ⟨"no marker", "spool err"⟩ rfl

/-- C8 counterexample: the invoke handler of lib.rs registers neither
list_printers nor print_raw_text (lib.rs lines 13-19), so the service
boundary does not expose all five operations as the claim states. -/
theorem listPrinters_not_registered_counterexample :
    TauriCommand.listPrinters ∉ registeredCommands ∧
      TauriCommand.printRawText ∉ registeredCommands := by decide

/-- C8 amended: the invoke handler registers silent_print,
check_printer_available and get_default_printer (plus the two medicines
commands), but not list_printers and not print_raw_text, which exist as
command functions yet are absent from the handler list. -/
theorem registered_commands_amended :
    TauriCommand.silentPrint ∈ registeredCommands ∧
      TauriCommand.checkPrinterAvailable ∈ registeredCommands ∧
      TauriCommand.getDefaultPrinter ∈ registeredCommands ∧
      TauriCommand.importBundledMedicines ∈ registeredCommands ∧
      TauriCommand.getMedicinesCount ∈ registeredCommands ∧
      TauriCommand.listPrinters ∉ registeredCommands ∧
      TauriCommand.printRawText ∉ registeredCommands := by decide

/-- C10: get_medicines_count (medicines.rs lines 87-105) returns Ok(0) —
not an error — when the database file does not exist, and likewise when
the count query itself fails (the `unwrap_or(0)`); on success it returns
the number of rows with is_active = 1 only. -/
theorem get_medicines_count_spec (env : MedEnv) (d : String)
    (hdir : env.configDir = .ok d) :
    (env.dbExists = false → get_medicines_count env = .ok 0) ∧
      (env.dbExists = true → env.openResult = .ok () → env.queryOk = false →
        get_medicines_count env = .ok 0) ∧
      (env.dbExists = true → env.openResult = .ok () → env.queryOk = true →
        get_medicines_count env = .ok ((env.rows.filter (fun r => r.is_active == 1)).length)) := by
  refine ⟨?_, ?_, ?_⟩
  · intro h1
    simp [get_medicines_count, hdir, h1]
  · intro h1 h2 h3
    simp [get_medicines_count, hdir, h1, h2, h3]
  · intro h1 h2 h3
    simp [get_medicines_count, hdir, h1, h2, h3, countActive]

/-- C10 witness: a concrete environment with two active rows among three. -/
theorem get_medicines_count_spec_witness :
    ((true : Bool) = false →
        get_medicines_count ⟨.ok "cfg", true, .ok (), true, [⟨1⟩, ⟨0⟩, ⟨1⟩]⟩ = .ok 0) ∧
      ((true : Bool) = true → (Except.ok () : Except String Unit) = Except.ok () →
        (true : Bool) = false →
        get_medicines_count ⟨.ok "cfg", true, .ok (), true, [⟨1⟩, ⟨0⟩, ⟨1⟩]⟩ = .ok 0) ∧
      ((true : Bool) = true → (Except.ok () : Except String Unit) = Except.ok () →
        (true : Bool) = true →
        get_medicines_count ⟨.ok "cfg", true, .ok (), true, [⟨1⟩, ⟨0⟩, ⟨1⟩]⟩ =
          .ok ((([⟨1⟩, ⟨0⟩, ⟨1⟩] : List MedRow).filter (fun r => r.is_active == 1)).length)) :=
  get_medicines_count_spec ⟨.ok "cfg", true, .ok (), true, [⟨1⟩, ⟨0⟩, ⟨1⟩]⟩ "cfg" rfl

/-- C1 counterexample: with the temp-file write succeeding and the
default-printer query yielding only whitespace, silent_print does return
the no-default-printer failure, but its OS-call trace shows the temp-file
write was performed before printer resolution — the claim's "without
having written the temporary file" is false (print.rs lines 14-27 run
before lines 36-57). -/
theorem silentPrint_noDefault_writes_temp_counterexample :
    silent_print true ⟨none, none, none, .ok ⟨"  \n", ""⟩, false, .error "e", .error "e"⟩
        "<p>bill</p>" =
        (.error noDefaultPrinterMsg, [OsCall.tempWrite, OsCall.queryDefaultPrinter]) ∧
      OsCall.tempWrite ∈
        (silent_print true ⟨none, none, none, .ok ⟨"  \n", ""⟩, false, .error "e", .error "e"⟩
          "<p>bill</p>").2 :=
  ⟨rfl, List.mem_cons_self _ _⟩

/-- C1 amended: when no explicit target exists (silent_print takes none)
and default-printer resolution fails, silent_print returns the
NoDefaultPrinter failure and invokes no print strategy — but only after
the temp-file write has already been performed: the write precedes printer
resolution. -/
theorem silentPrint_noDefault_after_tempwrite (env : SPEnv) (html : String)
    (h1 : env.createErr = none) (h2 : env.writeErr = none) (h3 : env.flushErr = none)
    (h4 : resolvedDefaultName env = "") :
    silent_print true env html =
      (.error noDefaultPrinterMsg, [OsCall.tempWrite, OsCall.queryDefaultPrinter]) := by
  simp [silent_print, h1, h2, h3, h4]

/-- C1 amended witness: the default-printer query itself fails to run. -/
theorem silentPrint_noDefault_after_tempwrite_witness :
    silent_print true ⟨none, none, none, .error "spawn failed", false, .error "e", .error "e"⟩
        "<p>b</p>" =
      (.error noDefaultPrinterMsg, [OsCall.tempWrite, OsCall.queryDefaultPrinter]) :=
  silentPrint_noDefault_after_tempwrite _ _ rfl rfl rfl rfl

/-- C5: when the resolved default printer's name contains "pdf"
case-insensitively, silent_print fails fast with the unsuitable-printer
error and its trace shows no print strategy was invoked (print.rs lines
59-67). -/
theorem silentPrint_virtual_printer_guard (env : SPEnv) (html : String)
    (h1 : env.createErr = none) (h2 : env.writeErr = none) (h3 : env.flushErr = none)
    (hne : ¬resolvedDefaultName env = "")
    (hpdf : containsS (lowerS (resolvedDefaultName env)) "pdf" = true) :
    silent_print true env html =
      (.error (unsuitablePrinterMsg (resolvedDefaultName env)),
        [OsCall.tempWrite, OsCall.queryDefaultPrinter]) := by
  simp [silent_print, h1, h2, h3, hne, hpdf]

/-- C5 witness: default printer "Microsoft Print to PDF". -/
theorem silentPrint_virtual_printer_guard_witness :
    silent_print true
        ⟨none, none, none, .ok ⟨"Microsoft Print to PDF\n", ""⟩, true, .ok ⟨"", ""⟩, .ok ⟨"", ""⟩⟩
        "<p>b</p>" =
      (.error (unsuitablePrinterMsg (resolvedDefaultName
          ⟨none, none, none, .ok ⟨"Microsoft Print to PDF\n", ""⟩, true, .ok ⟨"", ""⟩,
            .ok ⟨"", ""⟩⟩)),
        [OsCall.tempWrite, OsCall.queryDefaultPrinter]) :=
  silentPrint_virtual_printer_guard _ _ rfl rfl rfl (by decide) (by decide)

/-- C2 counterexample: with Edge installed but failing to spawn and the
PowerShell fallback also failing to spawn, both strategies fail, yet the
final error is only the fallback's "Failed to execute: ps boom" — the
engine strategy's failure ("edge boom") is not contained in it, so the
per-strategy failures are not chained into the final error (print.rs line
113 only logs the Edge failure). -/
theorem silentPrint_failures_not_chained_counterexample :
    silent_print true
        ⟨none, none, none, .ok ⟨"TVS MSP 250", ""⟩, true, .error "edge boom", .error "ps boom"⟩
        "<p>b</p>" =
        (.error "Failed to execute: ps boom",
          [OsCall.tempWrite, OsCall.queryDefaultPrinter, OsCall.runEdge, OsCall.runPsFallback]) ∧
      containsS "Failed to execute: ps boom" "edge boom" = false :=
  ⟨rfl, by decide⟩

/-- C2 amended: silent_print attempts the engine (Edge) strategy first; a
spawn that returns output is taken as the success outright (no fallback);
when the engine binary is missing or its invocation fails to spawn, the
code falls back to the second strategy — the IE/ShellExecute PowerShell
script over the same markup temp file, not a raw-spool of extracted text —
whose outcome becomes the final result, with the engine failure only
logged, never chained into it. -/
theorem silentPrint_strategy_chain_amended (env : SPEnv) (html : String)
    (h1 : env.createErr = none) (h2 : env.writeErr = none) (h3 : env.flushErr = none)
    (hne : ¬resolvedDefaultName env = "")
    (hguard : (containsS (lowerS (resolvedDefaultName env)) "pdf" ||
        containsS (lowerS (resolvedDefaultName env)) "onenote") = false) :
    (∀ out, env.edgeInstalled = true → env.edgeRun = .ok out →
        silent_print true env html =
          (.ok ("Print job sent to " ++ resolvedDefaultName env),
            [OsCall.tempWrite, OsCall.queryDefaultPrinter, OsCall.runEdge])) ∧
      (∀ e, env.edgeInstalled = true → env.edgeRun = .error e →
        silent_print true env html =
          (psFallbackOutcome env.psRun,
            [OsCall.tempWrite, OsCall.queryDefaultPrinter, OsCall.runEdge,
              OsCall.runPsFallback])) ∧
      (env.edgeInstalled = false →
        silent_print true env html =
          (psFallbackOutcome env.psRun,
            [OsCall.tempWrite, OsCall.queryDefaultPrinter, OsCall.runPsFallback])) := by
  refine ⟨?_, ?_, ?_⟩
  · intro out hi hr
    simp [silent_print, h1, h2, h3, hne, hguard, hi, hr]
  · intro e hi hr
    simp [silent_print, h1, h2, h3, hne, hguard, hi, hr]
  · intro hi
    simp [silent_print, h1, h2, h3, hne, hguard, hi]

/-- C2 amended witness: a concrete environment exercising the Edge-succeeds
branch (the other branches' premises are false there and hold vacuously). -/
theorem silentPrint_strategy_chain_amended_witness :
    (∀ out, (true : Bool) = true →
        (Except.ok (⟨"", ""⟩ : ProcOut) : Except String ProcOut) = .ok out →
        silent_print true
            ⟨none, none, none, .ok ⟨"TVS MSP 250", ""⟩, true, .ok ⟨"", ""⟩, .error "z"⟩
            "<p>b</p>" =
          (.ok ("Print job sent to " ++ resolvedDefaultName
              ⟨none, none, none, .ok ⟨"TVS MSP 250", ""⟩, true, .ok ⟨"", ""⟩, .error "z"⟩),
            [OsCall.tempWrite, OsCall.queryDefaultPrinter, OsCall.runEdge])) ∧
      (∀ e, (true : Bool) = true →
        (Except.ok (⟨"", ""⟩ : ProcOut) : Except String ProcOut) = .error e →
        silent_print true
            ⟨none, none, none, .ok ⟨"TVS MSP 250", ""⟩, true, .ok ⟨"", ""⟩, .error "z"⟩
            "<p>b</p>" =
          (psFallbackOutcome (.error "z"),
            [OsCall.tempWrite, OsCall.queryDefaultPrinter, OsCall.runEdge,
              OsCall.runPsFallback])) ∧
      ((true : Bool) = false →
        silent_print true
            ⟨none, none, none, .ok ⟨"TVS MSP 250", ""⟩, true, .ok ⟨"", ""⟩, .error "z"⟩
            "<p>b</p>" =
          (psFallbackOutcome (.error "z"),
            [OsCall.tempWrite, OsCall.queryDefaultPrinter, OsCall.runPsFallback])) :=
  silentPrint_strategy_chain_amended
    ⟨none, none, none, .ok ⟨"TVS MSP 250", ""⟩, true, .ok ⟨"", ""⟩, .error "z"⟩
    "<p>b</p>" rfl rfl rfl (by decide) (by decide)

/- ===== Occurrence machinery for the extractor ===== -/

theorem append_cases_pre {p v : List Char} :
    ∀ u : List Char, p <+: u ++ v → p <+: u ∨ ∃ r, p = u ++ r ∧ r <+: v := by
  intro u
  induction u generalizing p with
  | nil => intro h; right; exact ⟨p, rfl, h⟩
  | cons b u' ih =>
    intro h
    cases p with
    | nil => left; exact List.nil_prefix
    | cons a p' =>
      rw [List.cons_append, List.cons_prefix_cons] at h
      obtain ⟨hab, hp'⟩ := h
      subst hab
      rcases ih hp' with h1 | ⟨r, hr1, hr2⟩
      · left; exact List.cons_prefix_cons.mpr ⟨rfl, h1⟩
      · right; exact ⟨r, by rw [hr1, List.cons_append], hr2⟩

theorem append_elim_inf {p v : List Char} :
    ∀ u : List Char, p <:+: u ++ v →
      p <:+: u ∨ p <:+: v ∨ ∃ p₁ p₂, p = p₁ ++ p₂ ∧ p₂ ≠ [] ∧ p₂ <+: v := by
  intro u
  induction u generalizing p with
  | nil => intro h; right; left; simpa using h
  | cons b u' ih =>
    intro h
    rw [List.cons_append, List.infix_cons_iff] at h
    rcases h with h | h
    · rw [← List.cons_append] at h
      rcases append_cases_pre (b :: u') h with h1 | ⟨r, hr1, hr2⟩
      · left; exact h1.isInfix
      · cases r with
        | nil => left; rw [hr1, List.append_nil]
        | cons x r' =>
          right; right
          exact ⟨b :: u', x :: r', hr1, by simp, hr2⟩
    · rcases ih h with h1 | h1 | ⟨p₁, p₂, h1, h2, h3⟩
      · left; exact List.infix_cons h1
      · right; left; exact h1
      · right; right; exact ⟨p₁, p₂, h1, h2, h3⟩

theorem inf_map {p l : List Char} (f : Char → Char) (h : p <:+: l) :
    p.map f <:+: l.map f := by
  obtain ⟨s, t, hst⟩ := h
  exact ⟨s.map f, t.map f, by rw [← hst]; simp⟩

theorem findSub?_none_not_inf (pat : List Char) :
    ∀ l, findSub? pat l = none → ¬ pat <:+: l := by
  intro l
  induction l with
  | nil =>
    intro h hin
    rw [List.infix_nil] at hin
    subst hin
    simp [findSub?] at h
  | cons c r ih =>
    intro h hin
    rw [findSub?] at h
    by_cases hpre : pat.isPrefixOf (c :: r) = true
    · simp [hpre] at h
    · simp [hpre] at h
      rcases List.infix_cons_iff.mp hin with h1 | h1
      · rw [← List.isPrefixOf_iff_prefix] at h1
        exact hpre h1
      · exact ih h h1

theorem not_inf_of_findCI_none {pat l : List Char} (hlow : lowerL pat = pat)
    (h : findCI? pat l = none) : ¬ pat <:+: l := by
  intro hin
  have hmap := inf_map Char.toLower hin
  rw [show pat.map Char.toLower = lowerL pat from rfl, hlow] at hmap
  exact findSub?_none_not_inf pat (lowerL l) h hmap

theorem findSub?_some_le (pat : List Char) :
    ∀ l i, findSub? pat l = some i → i + pat.length ≤ l.length := by
  intro l
  induction l with
  | nil =>
    intro i h
    rw [findSub?] at h
    by_cases hpre : pat.isPrefixOf ([] : List Char) = true
    · simp [hpre] at h
      rw [List.isPrefixOf_iff_prefix, List.prefix_nil] at hpre
      subst hpre
      simp [← h]
    · simp [hpre] at h
  | cons c r ih =>
    intro i h
    rw [findSub?] at h
    by_cases hpre : pat.isPrefixOf (c :: r) = true
    · simp [hpre] at h
      rw [List.isPrefixOf_iff_prefix] at hpre
      have := hpre.length_le
      simp [← h]
      simpa using this
    · simp [hpre] at h
      obtain ⟨j, hj1, hj2⟩ := h
      have := ih j hj1
      simp [← hj2, List.length_cons]
      omega

theorem findCI?_some_le {pat l : List Char} {i : Nat} (h : findCI? pat l = some i) :
    i + pat.length ≤ l.length := by
  have := findSub?_some_le pat (lowerL l) i h
  simpa [lowerL] using this

theorem removeBlockOnce_lt (openPat closePat l : List Char) (i : Nat)
    (hbound : i + openPat.length ≤ l.length) (holen : 0 < openPat.length) :
    (removeBlockOnce openPat closePat l i).length < l.length := by
  simp only [removeBlockOnce]
  cases hj : findCI? closePat (l.drop (i + openPat.length)) with
  | some j =>
    simp only [List.length_append, List.length_take, List.length_drop]
    omega
  | none =>
    simp only [List.length_take]
    omega

theorem removeBlocksF_clean :
    ∀ f l, l.length < f →
      findCI? scriptOpenPat (removeBlocksF f l) = none ∧
        findCI? styleOpenPat (removeBlocksF f l) = none := by
  intro f
  induction f with
  | zero => intro l h; omega
  | succ f ih =>
    intro l h
    simp only [removeBlocksF]
    cases h1 : findCI? scriptOpenPat l with
    | some i =>
      refine ih _ ?_
      have := removeBlockOnce_lt scriptOpenPat scriptClosePat l i (findCI?_some_le h1)
        (by decide)
      omega
    | none =>
      cases h2 : findCI? styleOpenPat l with
      | some i =>
        refine ih _ ?_
        have := removeBlockOnce_lt styleOpenPat styleClosePat l i (findCI?_some_le h2)
          (by decide)
        omega
      | none =>
        cases h3 : findSub? commentOpenPat l with
        | some i =>
          refine ih _ ?_
          have := removeBlockOnce_lt commentOpenPat commentClosePat l i
            (findSub?_some_le commentOpenPat l i h3) (by decide)
          omega
        | none => exact ⟨h1, h2⟩

theorem removeBlocks_clean (l : List Char) :
    findCI? scriptOpenPat (removeBlocks l) = none ∧
      findCI? styleOpenPat (removeBlocks l) = none :=
  removeBlocksF_clean _ l (Nat.lt_succ_self _)

theorem removeBlockOnce_subset {a : Char} {openPat closePat l : List Char} {i : Nat}
    (h : a ∈ removeBlockOnce openPat closePat l i) : a ∈ l := by
  simp only [removeBlockOnce] at h
  cases hj : findCI? closePat (l.drop (i + openPat.length)) with
  | some j =>
    rw [hj] at h
    rcases List.mem_append.mp h with h1 | h1
    · exact (List.take_sublist _ _).subset h1
    · exact (List.drop_sublist _ _).subset ((List.drop_sublist _ _).subset h1)
  | none =>
    rw [hj] at h
    exact (List.take_sublist _ _).subset h

theorem removeBlocksF_subset {a : Char} :
    ∀ f l, a ∈ removeBlocksF f l → a ∈ l := by
  intro f
  induction f with
  | zero => intro l h; exact h
  | succ f ih =>
    intro l h
    simp only [removeBlocksF] at h
    cases h1 : findCI? scriptOpenPat l with
    | some i =>
      rw [h1] at h
      exact removeBlockOnce_subset (ih _ h)
    | none =>
      rw [h1] at h
      cases h2 : findCI? styleOpenPat l with
      | some i =>
        rw [h2] at h
        exact removeBlockOnce_subset (ih _ h)
      | none =>
        rw [h2] at h
        cases h3 : findSub? commentOpenPat l with
        | some i =>
          rw [h3] at h
          exact removeBlockOnce_subset (ih _ h)
        | none =>
          rw [h3] at h
          exact h

theorem removeBlocks_subset {a : Char} {l : List Char} (h : a ∈ removeBlocks l) : a ∈ l :=
  removeBlocksF_subset _ l h

theorem preContent?_inf {l pc : List Char} (h : preContent? l = some pc) : pc <:+: l := by
  simp only [preContent?] at h
  split at h
  · split at h
    · simp only [Option.some.injEq] at h
      subst h
      exact ((List.take_prefix _ _).isInfix).trans ((List.drop_suffix _ _).isInfix)
    · simp only [Option.some.injEq] at h
      subst h
      exact (List.drop_suffix _ _).isInfix
  · exact absurd h (by simp)

theorem bodyContent_inf (l : List Char) : bodyContent l <:+: l := by
  simp only [bodyContent]
  split
  · split
    · exact ((List.take_prefix _ _).isInfix).trans ((List.drop_suffix _ _).isInfix)
    · exact (List.drop_suffix _ _).isInfix
  · exact List.infix_rfl

theorem matchTag_spec {l rep : List Char} {n : Nat} (h : matchTag l = some (rep, n)) :
    1 ≤ n ∧ (∀ a ∈ rep, a = '\n' ∨ a = '-' ∨ a = ' ') := by
  simp only [matchTag] at h
  split at h
  · next pr hf =>
    simp only [Option.some.injEq, Prod.mk.injEq] at h
    obtain ⟨hrep, hn⟩ := h
    have hmem := List.mem_of_find?_eq_some hf
    have htab : ∀ pr ∈ tagRules,
        1 ≤ pr.1.length ∧ ∀ a ∈ pr.2, a = '\n' ∨ a = '-' ∨ a = ' ' := by decide
    obtain ⟨h1, h2⟩ := htab pr hmem
    subst hrep
    subst hn
    exact ⟨h1, h2⟩
  · exact absurd h (by simp)

theorem stripTagsF_no_lt : ∀ f l, '<' ∉ stripTagsF f l := by
  intro f
  induction f with
  | zero => intro l h; simp [stripTagsF] at h
  | succ f ih =>
    intro l h
    cases l with
    | nil => simp [stripTagsF] at h
    | cons c r =>
      simp only [stripTagsF] at h
      split at h
      · split at h
        · next rep n hm =>
          rcases List.mem_append.mp h with h1 | h1
          · rcases (matchTag_spec hm).2 '<' h1 with h2 | h2 | h2 <;> simp at h2
          · exact ih _ h1
        · exact ih _ h
      · next hc =>
        rcases List.mem_cons.mp h with h1 | h1
        · exact hc h1.symm
        · exact ih _ h1

theorem stripTagsF_subset {a : Char} :
    ∀ f l, a ∈ stripTagsF f l → a ∈ l ∨ a = '\n' ∨ a = '-' ∨ a = ' ' := by
  intro f
  induction f with
  | zero => intro l h; simp [stripTagsF] at h
  | succ f ih =>
    intro l h
    cases l with
    | nil => simp [stripTagsF] at h
    | cons c r =>
      simp only [stripTagsF] at h
      split at h
      · split at h
        · next rep n hm =>
          rcases List.mem_append.mp h with h1 | h1
          · exact Or.inr ((matchTag_spec hm).2 a h1)
          · rcases ih _ h1 with h2 | h2
            · exact Or.inl ((List.drop_sublist _ _).subset h2)
            · exact Or.inr h2
        · rcases ih _ h with h2 | h2
          · refine Or.inl (List.mem_cons_of_mem c ?_)
            have hsub :=
              (List.drop_sublist 1 (List.dropWhile (fun x => x != '>') r)).trans
                ((List.dropWhile_suffix (fun x => x != '>')).sublist)
            exact hsub.subset h2
          · exact Or.inr h2
      · rcases List.mem_cons.mp h with h1 | h1
        · exact Or.inl (h1 ▸ List.mem_cons_self c r)
        · rcases ih _ h1 with h2 | h2
          · exact Or.inl (List.mem_cons_of_mem c h2)
          · exact Or.inr h2

theorem head_mem_contra {a x : Char} {p' : List Char} (hx : x ∉ a :: p') (h : a = x) :
    False := by
  apply hx
  rw [← h]
  exact List.mem_cons_self a p'

theorem subst_cons_rupee {r : List Char} {c : Char} (hc : c = rupeeChar) :
    subst (c :: r) = 'R' :: 's' :: '.' :: subst r := by
  subst hc
  simp [subst, substChar]

theorem subst_cons_mult {r : List Char} {c : Char} (hc : c = multChar) :
    subst (c :: r) = 'x' :: subst r := by
  subst hc
  simp [subst, substChar, (by decide : ¬multChar = rupeeChar)]

theorem subst_cons_other {r : List Char} {c : Char} (h1 : ¬c = rupeeChar)
    (h2 : ¬c = multChar) : subst (c :: r) = c :: subst r := by
  simp [subst, substChar, h1, h2]

theorem decodeF_eq_subst :
    ∀ f l, l.length < f → '&' ∉ l → decodeF f l = subst l := by
  intro f
  induction f with
  | zero => intro l h _; omega
  | succ f ih =>
    intro l h hamp
    cases l with
    | nil => rfl
    | cons c r =>
      have hc : ¬c = '&' := fun hh => hamp (hh ▸ List.mem_cons_self c r)
      have hr : r.length < f := by simp only [List.length_cons] at h; omega
      have hampr : '&' ∉ r := fun hh => hamp (List.mem_cons_of_mem c hh)
      by_cases h1 : c = rupeeChar
      · rw [subst_cons_rupee h1]
        subst h1
        have e1 : ¬rupeeChar = '&' := by decide
        simp [decodeF, e1, ih r hr hampr]
      · by_cases h2 : c = multChar
        · rw [subst_cons_mult h2]
          subst h2
          have e1 : ¬multChar = '&' := by decide
          have e2 : ¬multChar = rupeeChar := by decide
          simp [decodeF, e1, e2, ih r hr hampr]
        · rw [subst_cons_other h1 h2]
          simp [decodeF, hc, h1, h2, ih r hr hampr]

theorem decode_eq_subst {l : List Char} (hamp : '&' ∉ l) : decode l = subst l :=
  decodeF_eq_subst _ l (Nat.lt_succ_self _) hamp

theorem subst_subset {a : Char} :
    ∀ l, a ∈ subst l → a ∈ l ∨ a = 'R' ∨ a = 's' ∨ a = '.' ∨ a = 'x' := by
  intro l
  induction l with
  | nil => intro h; simp [subst] at h
  | cons c r ih =>
    intro h
    simp only [subst] at h
    rcases List.mem_append.mp h with h1 | h1
    · by_cases hcr : c = rupeeChar
      · rw [show substChar c = ['R', 's', '.'] from by simp [substChar, hcr]] at h1
        simp only [List.mem_cons, List.not_mem_nil, or_false] at h1
        rcases h1 with h2 | h2 | h2 <;> simp [h2]
      · by_cases hcm : c = multChar
        · rw [show substChar c = ['x'] from by
            simp [substChar, hcm, (by decide : ¬multChar = rupeeChar)]] at h1
          simp only [List.mem_cons, List.not_mem_nil, or_false] at h1
          simp [h1]
        · rw [show substChar c = [c] from by simp [substChar, hcr, hcm]] at h1
          simp only [List.mem_cons, List.not_mem_nil, or_false] at h1
          exact Or.inl (h1 ▸ List.mem_cons_self c r)
    · rcases ih h1 with h2 | h2
      · exact Or.inl (List.mem_cons_of_mem c h2)
      · exact Or.inr h2

theorem subst_pre_reflect :
    ∀ (r p : List Char),
      (∀ a ∈ p, ¬a = rupeeChar ∧ ¬a = multChar ∧ ¬a = 'R' ∧ ¬a = 'x') →
      p <+: subst r → p <+: r := by
  intro r
  induction r with
  | nil => intro p _ h; exact h
  | cons c r' ih =>
    intro p hp h
    cases p with
    | nil => exact List.nil_prefix
    | cons a p' =>
      by_cases hc : c = rupeeChar
      · rw [subst_cons_rupee hc, List.cons_prefix_cons] at h
        exact absurd h.1 (hp a (List.mem_cons_self a p')).2.2.1
      · by_cases hm : c = multChar
        · rw [subst_cons_mult hm, List.cons_prefix_cons] at h
          exact absurd h.1 (hp a (List.mem_cons_self a p')).2.2.2
        · rw [subst_cons_other hc hm, List.cons_prefix_cons] at h
          obtain ⟨hac, hpre⟩ := h
          subst hac
          exact List.cons_prefix_cons.mpr ⟨rfl,
            ih p' (fun x hx => hp x (List.mem_cons_of_mem _ hx)) hpre⟩

theorem subst_inf_reflect :
    ∀ (r p : List Char),
      (∀ a ∈ p, ¬a = rupeeChar ∧ ¬a = multChar ∧ ¬a = 'R' ∧ ¬a = 'x') →
      p.head? ≠ some 's' → p.head? ≠ some '.' →
      ∀ i, p <+: (subst r).drop i → p <:+: r := by
  intro r
  induction r with
  | nil =>
    intro p hp hh1 hh2 i h
    have hnil : p = [] := List.prefix_nil.mp (by simpa [subst, List.drop_nil] using h)
    simp [hnil]
  | cons c r' ih =>
    intro p hp hh1 hh2 i h
    by_cases hc : c = rupeeChar
    · rw [subst_cons_rupee hc] at h
      rcases i with _ | _ | _ | j
      · cases p with
        | nil => exact List.nil_infix
        | cons a p' =>
          rw [List.drop_zero, List.cons_prefix_cons] at h
          exact absurd h.1 (hp a (List.mem_cons_self a p')).2.2.1
      · cases p with
        | nil => exact List.nil_infix
        | cons a p' =>
          rw [List.drop_succ_cons, List.drop_zero, List.cons_prefix_cons] at h
          exact absurd (by simp [h.1] : (a :: p').head? = some 's') hh1
      · cases p with
        | nil => exact List.nil_infix
        | cons a p' =>
          rw [List.drop_succ_cons, List.drop_succ_cons, List.drop_zero,
            List.cons_prefix_cons] at h
          exact absurd (by simp [h.1] : (a :: p').head? = some '.') hh2
      · rw [List.drop_succ_cons, List.drop_succ_cons, List.drop_succ_cons] at h
        exact List.infix_cons (ih p hp hh1 hh2 j h)
    · by_cases hm : c = multChar
      · rw [subst_cons_mult hm] at h
        rcases i with _ | j
        · cases p with
          | nil => exact List.nil_infix
          | cons a p' =>
            rw [List.drop_zero, List.cons_prefix_cons] at h
            exact absurd h.1 (hp a (List.mem_cons_self a p')).2.2.2
        · rw [List.drop_succ_cons] at h
          exact List.infix_cons (ih p hp hh1 hh2 j h)
      · rw [subst_cons_other hc hm] at h
        rcases i with _ | j
        · rw [List.drop_zero] at h
          have h2 := subst_pre_reflect (c :: r') p hp (by
            rw [subst_cons_other hc hm]
            exact h)
          exact h2.isInfix
        · rw [List.drop_succ_cons] at h
          exact List.infix_cons (ih p hp hh1 hh2 j h)

theorem not_inf_subst {p r : List Char}
    (hp : ∀ a ∈ p, ¬a = rupeeChar ∧ ¬a = multChar ∧ ¬a = 'R' ∧ ¬a = 'x')
    (hh1 : p.head? ≠ some 's') (hh2 : p.head? ≠ some '.')
    (h : ¬ p <:+: r) : ¬ p <:+: subst r := by
  intro hin
  obtain ⟨s, t, hst⟩ := hin
  have hd : p <+: (subst r).drop s.length := by
    rw [← hst, List.append_assoc, List.drop_left]
    exact List.prefix_append p t
  exact h (subst_inf_reflect r p hp hh1 hh2 s.length hd)

theorem splitOnChar_infs (sep : Char) :
    ∀ l, ∃ ln lns, splitOnChar sep l = ln :: lns ∧ ln <+: l ∧ ∀ x ∈ lns, x <:+: l := by
  intro l
  induction l with
  | nil => exact ⟨[], [], rfl, List.nil_prefix, by simp⟩
  | cons c r ih =>
    obtain ⟨ln, lns, heq, hpre, hinf⟩ := ih
    by_cases hc : c = sep
    · refine ⟨[], ln :: lns, ?_, List.nil_prefix, ?_⟩
      · simp only [splitOnChar, heq, if_pos hc]
      · intro x hx
        rcases List.mem_cons.mp hx with h1 | h1
        · exact List.infix_cons (h1 ▸ hpre.isInfix)
        · exact List.infix_cons (hinf x h1)
    · refine ⟨c :: ln, lns, ?_, ?_, ?_⟩
      · simp only [splitOnChar, heq, if_neg hc]
      · exact List.cons_prefix_cons.mpr ⟨rfl, hpre⟩
      · intro x hx
        exact List.infix_cons (hinf x hx)

theorem splitOnChar_mem_inf {sep : Char} {l x : List Char} (h : x ∈ splitOnChar sep l) :
    x <:+: l := by
  obtain ⟨ln, lns, heq, hpre, hinf⟩ := splitOnChar_infs sep l
  rw [heq] at h
  rcases List.mem_cons.mp h with h1 | h1
  · exact h1 ▸ hpre.isInfix
  · exact hinf x h1

theorem collapseBlanksF_mem {x : List Char} :
    ∀ f lns, x ∈ collapseBlanksF f lns → x ∈ lns := by
  intro f
  induction f with
  | zero => intro lns h; simp [collapseBlanksF] at h
  | succ f ih =>
    intro lns h
    cases lns with
    | nil => simp [collapseBlanksF] at h
    | cons ln rest =>
      cases ln with
      | cons a ln' =>
        rcases List.mem_cons.mp h with h1 | h1
        · exact h1 ▸ List.mem_cons_self _ _
        · exact List.mem_cons_of_mem _ (ih _ h1)
      | nil =>
        cases rest with
        | nil =>
          rcases List.mem_cons.mp h with h1 | h1
          · exact h1 ▸ List.mem_cons_self _ _
          · exact List.mem_cons_of_mem _ (ih _ h1)
        | cons l2 rest2 =>
          cases l2 with
          | cons b l2' =>
            rcases List.mem_cons.mp h with h1 | h1
            · exact h1 ▸ List.mem_cons_self _ _
            · exact List.mem_cons_of_mem _ (ih _ h1)
          | nil =>
            cases rest2 with
            | nil =>
              rcases List.mem_cons.mp h with h1 | h1
              · exact h1 ▸ List.mem_cons_self _ _
              · exact List.mem_cons_of_mem _ (ih _ h1)
            | cons l3 rest3 =>
              cases l3 with
              | cons d l3' =>
                rcases List.mem_cons.mp h with h1 | h1
                · exact h1 ▸ List.mem_cons_self _ _
                · exact List.mem_cons_of_mem _ (ih _ h1)
              | nil =>
                rcases List.mem_cons.mp h with h1 | h1
                · exact h1 ▸ List.mem_cons_self _ _
                · have h2 := ih _ h1
                  have h3 :=
                    ((List.dropWhile_suffix List.isEmpty).sublist.subset) h2
                  exact List.mem_cons_of_mem _ (List.mem_cons_of_mem _
                    (List.mem_cons_of_mem _ h3))

theorem collapseBlanks_mem {x : List Char} {lns : List (List Char)}
    (h : x ∈ collapseBlanks lns) : x ∈ lns :=
  collapseBlanksF_mem _ _ h

theorem joinLines_inf_elim {p : List Char} (hnl : '\n' ∉ p) (hne : p ≠ []) :
    ∀ lns, p <:+: joinLines lns → ∃ ln, ln ∈ lns ∧ p <:+: ln := by
  intro lns
  induction lns with
  | nil =>
    intro h
    rw [show joinLines [] = [] from rfl, List.infix_nil] at h
    exact absurd h hne
  | cons ln rest ih =>
    intro h
    cases rest with
    | nil => exact ⟨ln, List.mem_cons_self _ _, h⟩
    | cons l2 rest2 =>
      rw [show joinLines (ln :: l2 :: rest2) = ln ++ '\n' :: joinLines (l2 :: rest2)
        from rfl] at h
      rcases append_elim_inf ln h with h1 | h1 | ⟨p₁, p₂, hp12, hp2ne, hp2⟩
      · exact ⟨ln, List.mem_cons_self _ _, h1⟩
      · rcases List.infix_cons_iff.mp h1 with h2 | h2
        · cases p with
          | nil => exact absurd rfl hne
          | cons a p' =>
            rw [List.cons_prefix_cons] at h2
            exact absurd h2.1 (fun hh => head_mem_contra hnl hh)
        · obtain ⟨ln2, hmem, hln2⟩ := ih h2
          exact ⟨ln2, List.mem_cons_of_mem _ hmem, hln2⟩
      · cases p₂ with
        | nil => exact absurd rfl hp2ne
        | cons b p₂' =>
          rw [List.cons_prefix_cons] at hp2
          have hb : b ∈ p := by
            rw [hp12]
            exact List.mem_append.mpr (Or.inr (List.mem_cons_self _ _))
          rw [hp2.1] at hb
          exact absurd hb hnl

theorem collapseSpacesF_pre_reflect :
    ∀ f (p l : List Char), ' ' ∉ p → p <+: collapseSpacesF f l → p <+: l := by
  intro f
  induction f with
  | zero =>
    intro p l hsp h
    have hnil : p = [] := List.prefix_nil.mp h
    simp [hnil]
  | succ f ih =>
    intro p l hsp h
    cases l with
    | nil =>
      have hnil : p = [] := List.prefix_nil.mp h
      simp [hnil]
    | cons c r =>
      by_cases hc : c = ' '
      · subst hc
        cases p with
        | nil => exact List.nil_prefix
        | cons a p' =>
          cases r with
          | nil =>
            rw [show collapseSpacesF (f + 1) [' '] = [' '] from rfl,
              List.cons_prefix_cons] at h
            exact absurd (head_mem_contra hsp h.1) id
          | cons c2 r2 =>
            by_cases hc2 : c2 = ' '
            · subst hc2
              rw [show collapseSpacesF (f + 1) (' ' :: ' ' :: r2) =
                  ' ' :: ' ' :: collapseSpacesF f (r2.dropWhile (fun a => a == ' '))
                  from rfl, List.cons_prefix_cons] at h
              exact absurd (head_mem_contra hsp h.1) id
            · rw [show collapseSpacesF (f + 1) (' ' :: c2 :: r2) =
                  ' ' :: collapseSpacesF f (c2 :: r2) from by
                    simp [collapseSpacesF, hc2], List.cons_prefix_cons] at h
              exact absurd (head_mem_contra hsp h.1) id
      · rw [show collapseSpacesF (f + 1) (c :: r) = c :: collapseSpacesF f r from by
          simp [collapseSpacesF, hc]] at h
        cases p with
        | nil => exact List.nil_prefix
        | cons a p' =>
          rw [List.cons_prefix_cons] at h
          obtain ⟨hac, hp'⟩ := h
          subst hac
          exact List.cons_prefix_cons.mpr ⟨rfl,
            ih p' r (fun hx => hsp (List.mem_cons_of_mem _ hx)) hp'⟩

theorem collapseSpacesF_inf_reflect :
    ∀ f (p l : List Char), ' ' ∉ p → p ≠ [] → p <:+: collapseSpacesF f l → p <:+: l := by
  intro f
  induction f with
  | zero =>
    intro p l hsp hne h
    rw [show collapseSpacesF 0 l = [] from rfl, List.infix_nil] at h
    exact absurd h hne
  | succ f ih =>
    intro p l hsp hne h
    cases l with
    | nil =>
      rw [show collapseSpacesF (f + 1) [] = [] from rfl, List.infix_nil] at h
      exact absurd h hne
    | cons c r =>
      by_cases hc : c = ' '
      · subst hc
        cases r with
        | nil =>
          rw [show collapseSpacesF (f + 1) [' '] = [' '] from rfl] at h
          cases p with
          | nil => exact absurd rfl hne
          | cons a p' =>
            have ha := h.sublist.subset (List.mem_cons_self a p')
            simp only [List.mem_cons, List.not_mem_nil, or_false] at ha
            exact absurd (head_mem_contra hsp ha) id
        | cons c2 r2 =>
          by_cases hc2 : c2 = ' '
          · subst hc2
            rw [show collapseSpacesF (f + 1) (' ' :: ' ' :: r2) =
                ' ' :: ' ' :: collapseSpacesF f (r2.dropWhile (fun a => a == ' '))
                from rfl] at h
            rcases List.infix_cons_iff.mp h with h1 | h1
            · cases p with
              | nil => exact absurd rfl hne
              | cons a p' =>
                rw [List.cons_prefix_cons] at h1
                exact absurd (head_mem_contra hsp h1.1) id
            · rcases List.infix_cons_iff.mp h1 with h2 | h2
              · cases p with
                | nil => exact absurd rfl hne
                | cons a p' =>
                  rw [List.cons_prefix_cons] at h2
                  exact absurd (head_mem_contra hsp h2.1) id
              · have h3 := ih p _ hsp hne h2
                have h4 := h3.trans ((List.dropWhile_suffix _).isInfix)
                exact List.infix_cons (List.infix_cons h4)
          · rw [show collapseSpacesF (f + 1) (' ' :: c2 :: r2) =
                ' ' :: collapseSpacesF f (c2 :: r2) from by
                  simp [collapseSpacesF, hc2]] at h
            rcases List.infix_cons_iff.mp h with h1 | h1
            · cases p with
              | nil => exact absurd rfl hne
              | cons a p' =>
                rw [List.cons_prefix_cons] at h1
                exact absurd (head_mem_contra hsp h1.1) id
            · exact List.infix_cons (ih p _ hsp hne h1)
      · rw [show collapseSpacesF (f + 1) (c :: r) = c :: collapseSpacesF f r from by
          simp [collapseSpacesF, hc]] at h
        rcases List.infix_cons_iff.mp h with h1 | h1
        · have h2 := collapseSpacesF_pre_reflect (f + 1) p (c :: r) hsp (by
            rw [show collapseSpacesF (f + 1) (c :: r) = c :: collapseSpacesF f r from by
              simp [collapseSpacesF, hc]]
            exact h1)
          exact h2.isInfix
        · exact List.infix_cons (ih p r hsp hne h1)

theorem trimLine_inf (l : List Char) : trimLine l <:+: l := by
  have h1 : (l.dropWhile (fun a => a == ' ')) <:+ l := List.dropWhile_suffix _
  have h2 : trimLine l <+: l.dropWhile (fun a => a == ' ') := by
    rw [trimLine, ← List.reverse_suffix, List.reverse_reverse]
    exact List.dropWhile_suffix _
  exact h2.isInfix.trans h1.isInfix

theorem normalizeWs_inf_reflect {p : List Char} (hnl : '\n' ∉ p) (hsp : ' ' ∉ p)
    (hne : p ≠ []) {d : List Char} (h : p <:+: normalizeWs d) : p <:+: d := by
  rw [normalizeWs] at h
  obtain ⟨ln, hmem, hln⟩ := joinLines_inf_elim hnl hne _ h
  have hmem2 := collapseBlanks_mem hmem
  have hmem3 := (List.mem_filter.mp hmem2).1
  obtain ⟨ln₀, hln₀, hmap⟩ := List.mem_map.mp hmem3
  rw [← hmap] at hln
  have h1 := collapseSpacesF_inf_reflect ((trimLine ln₀).length + 1) p (trimLine ln₀)
    hsp hne hln
  exact (h1.trans (trimLine_inf ln₀)).trans (splitOnChar_mem_inf hln₀)

theorem stripTags_no_lt (l : List Char) : '<' ∉ stripTags l := stripTagsF_no_lt _ l

theorem stripTags_subset {a : Char} {l : List Char} (h : a ∈ stripTags l) :
    a ∈ l ∨ a = '\n' ∨ a = '-' ∨ a = ' ' := stripTagsF_subset _ l h

theorem pad_inf_elim {p : List Char} (hnl : '\n' ∉ p) (hff : '\x0C' ∉ p) (hne : p ≠ [])
    {l : List Char} (h : p <:+: l ++ padSuffix) : p <:+: l := by
  rcases append_elim_inf l h with h1 | h1 | ⟨p₁, p₂, hp12, hp2ne, hp2⟩
  · exact h1
  · cases p with
    | nil => exact absurd rfl hne
    | cons a p' =>
      have ha := h1.sublist.subset (List.mem_cons_self a p')
      simp only [padSuffix, List.mem_cons, List.not_mem_nil, or_false] at ha
      rcases ha with h2 | h2 | h2 | h2 | h2 | h2
      · exact (head_mem_contra hnl h2).elim
      · exact (head_mem_contra hnl h2).elim
      · exact (head_mem_contra hnl h2).elim
      · exact (head_mem_contra hnl h2).elim
      · exact (head_mem_contra hnl h2).elim
      · exact (head_mem_contra hff h2).elim
  · cases p₂ with
    | nil => exact absurd rfl hp2ne
    | cons b p₂' =>
      rw [show padSuffix = '\n' :: ['\n', '\n', '\n', '\n', '\x0C'] from rfl,
        List.cons_prefix_cons] at hp2
      have hb : b ∈ p := by
        rw [hp12]
        exact List.mem_append.mpr (Or.inr (List.mem_cons_self _ _))
      rw [hp2.1] at hb
      exact absurd hb hnl

theorem extract_core_clean (p : List Char)
    (hlow : lowerL p = p)
    (hne : p ≠ []) (hnl : '\n' ∉ p) (hsp : ' ' ∉ p) (hff : '\x0C' ∉ p)
    (hlt : '<' ∈ p)
    (hp : ∀ a ∈ p, ¬a = rupeeChar ∧ ¬a = multChar ∧ ¬a = 'R' ∧ ¬a = 'x')
    (hh1 : p.head? ≠ some 's') (hh2 : p.head? ≠ some '.')
    (s : List Char) (hamp : '&' ∉ s)
    (hclean : findCI? p (removeBlocks s) = none) :
    ¬ p <:+: extractL s := by
  intro h
  have hampr : '&' ∉ removeBlocks s := fun hh => hamp (removeBlocks_subset hh)
  simp only [extractL] at h
  cases hpc : preContent? (removeBlocks s) with
  | some pc =>
    simp only [hpc] at h
    have hinfpc := preContent?_inf hpc
    have hamppc : '&' ∉ pc := fun hh => hampr (hinfpc.sublist.subset hh)
    rw [decode_eq_subst hamppc] at h
    have hnotpc : ¬ p <:+: pc := fun h2 =>
      not_inf_of_findCI_none hlow hclean (h2.trans hinfpc)
    have h1 := pad_inf_elim hnl hff hne h
    have h2 := normalizeWs_inf_reflect hnl hsp hne h1
    exact not_inf_subst hp hh1 hh2 hnotpc h2
  | none =>
    simp only [hpc] at h
    have hampc : '&' ∉ stripTags (bodyContent (removeBlocks s)) := by
      intro hh
      rcases stripTags_subset hh with h1 | h1 | h1 | h1
      · exact hampr ((bodyContent_inf _).sublist.subset h1)
      · exact absurd h1 (by decide)
      · exact absurd h1 (by decide)
      · exact absurd h1 (by decide)
    rw [decode_eq_subst hampc] at h
    have h1 := pad_inf_elim hnl hff hne h
    have h2 := normalizeWs_inf_reflect hnl hsp hne h1
    have hlt2 : '<' ∈ subst (stripTags (bodyContent (removeBlocks s))) :=
      h2.sublist.subset hlt
    rcases subst_subset _ hlt2 with h3 | h3 | h3 | h3 | h3
    · exact stripTags_no_lt _ h3
    · exact absurd h3 (by decide)
    · exact absurd h3 (by decide)
    · exact absurd h3 (by decide)
    · exact absurd h3 (by decide)

/-- C3 counterexample: the entity-decoding step reintroduces `<`, so the
input "&lt;script" — which contains no script or style block at all —
produces an extract output containing the substring `<script`, refuting the
claim's "for every input string" (the spec's own step 6 decodes `&lt;`
after step 5 has removed literal tags). -/
theorem extract_entity_leak_counterexample :
    "<script".data <:+: extractL ("&lt;script".data) ∧
      containsS (extract "&lt;script") "<script" = true := by
  constructor
  · exact ⟨[], ['\n', '\n', '\n', '\n', '\n', '\x0C'], by decide⟩
  · decide

/-- C3 amended: extract is total (it is a function), and for every input in
which the character `&` does not occur its output contains neither
`<script` nor `<style`: block removal runs to a fixpoint, tag stripping
removes every remaining `<`, and with no `&` the decode step cannot
reintroduce one. The `&`-freedom hypothesis is forced by the
counterexample: entity-encoded input (`&lt;script`, or entities assembled
by block-removal splicing) can place `<script` in the output. -/
theorem extract_clean_of_no_amp (s : List Char) (h : '&' ∉ s) :
    ¬ ("<script".data <:+: extractL s) ∧ ¬ ("<style".data <:+: extractL s) := by
  constructor
  · exact extract_core_clean "<script".data (by decide) (by decide) (by decide)
      (by decide) (by decide) (by decide) (by decide) (by decide) (by decide) s h
      (removeBlocks_clean s).1
  · exact extract_core_clean "<style".data (by decide) (by decide) (by decide)
      (by decide) (by decide) (by decide) (by decide) (by decide) (by decide) s h
      (removeBlocks_clean s).2

/-- C3 amended witness: a concrete markup input with a script block (and no
`&`), whose extract output contains neither forbidden substring. -/
theorem extract_clean_of_no_amp_witness :
    ¬ ("<script".data <:+: extractL ("<p>A<script>x</script></p>".data)) ∧
      ¬ ("<style".data <:+: extractL ("<p>A<script>x</script></p>".data)) :=
  extract_clean_of_no_amp _ (by decide)
